import Mathlib

/-!
Verification of the k-ordered identifier library (package guid).

The Go source is shallowly embedded: Go uint64 values are natural numbers
kept below 2^64, every wrapping uint64 operation is modelled by an explicit
operation that reduces modulo 2^64, and the bit surgery of the identifier
codec is translated operator by operator from the source files guid.go,
clock.go and chronos.go.
-/

set_option maxHeartbeats 1600000

namespace Guid

/-! ### Go uint64 primitives

Values of Go type uint64 are represented as naturals below 2^64.  Shifts,
addition and subtraction reduce modulo 2^64 exactly as Go does; a Go shift
by 64 or more yields 0, which the modulus reproduces for left shifts and
which truncation of the dividend reproduces for right shifts on in-range
values. -/

def shl64 (x s : Nat) : Nat := (x <<< s) % 2 ^ 64

def shr64 (x s : Nat) : Nat := x >>> s

def add64 (x y : Nat) : Nat := (x + y) % 2 ^ 64

def sub64 (x y : Nat) : Nat := (x + 2 ^ 64 - y) % 2 ^ 64

/-! ### Constants (guid.go, chronos.go) -/

def driftZ : Nat := 18

def bitsDrift : Nat := 3

def bitsSeq : Nat := 14

def bitsSeqDrift : Nat := bitsSeq + bitsDrift

def bytesInG : Nat := 12

def bytesInL : Nat := 8

/-- One second, as a Go time.Duration value (int64 nanoseconds). -/
def second : Int := 1000000000

/-- driftInBits (chronos.go): converts the optional time drift bound into
the number of bits to shift the location fraction.  The Go switch is
evaluated top to bottom. -/
def driftInBits (drift : List Int) : Nat :=
  match drift with
  | [] => driftZ + 3
  | d :: _ =>
    if d ≤ 34 * second then driftZ
    else if d ≤ 68 * second then driftZ + 1
    else if d ≤ 137 * second then driftZ + 2
    else if d ≤ 274 * second then driftZ + 3
    else if d ≤ 549 * second then driftZ + 4
    else if d ≤ 1099 * second then driftZ + 5
    else if d ≤ 2199 * second then driftZ + 6
    else driftZ + 7

/-- splitT (chronos.go): splits the timestamp fraction into the hi and lo
words of a K order value. -/
def splitT (t drift : Nat) : Nat × Nat :=
  let x := shr64 t (14 + 3)
  let a := sub64 (sub64 64 14) drift
  let b := sub64 32 a
  let lo := shr64 (shl64 x (add64 a 14)) a
  let hi := shl64 (shr64 x drift) b
  let dd := shl64 (sub64 drift driftZ) 29
  (hi ||| dd, lo)

/-- splitNode (chronos.go): splits the location fraction into the hi and lo
words of a K order value. -/
def splitNode (node drift : Nat) : Nat × Nat :=
  let a := sub64 (sub64 64 14) drift
  let b := sub64 32 a
  let lo := shl64 node (add64 drift 14)
  let hi := shr64 node (sub64 32 b)
  (hi, lo)

/-- K (guid.go): native representation of a k-ordered number, two 64-bit
words.  Local values have Hi = 0. -/
structure K where
  Hi : Nat
  Lo : Nat
deriving DecidableEq, Repr

/-- makeG (guid.go). -/
def makeG (n drift t seq : Nat) : K :=
  let tp := splitT t drift
  let np := splitNode n drift
  { Hi := tp.1 ||| np.1, Lo := np.2 ||| tp.2 ||| seq }

/-- makeL (guid.go). -/
def makeL (drift t seq : Nat) : K :=
  let d := shl64 (sub64 drift driftZ) 61
  let x := shl64 (shr64 t bitsSeqDrift) bitsSeq
  { Hi := 0, Lo := d ||| x ||| seq }

/-- Chronos (clock.go): the logical clock capability.  The Go interface is
stateful; successive calls of T are modelled by an explicit call index. -/
structure Chronos where
  L : Nat
  T : Nat → Nat × Nat

/-- Z (guid.go): the zero local k-order identifier. -/
def Z (clock : Chronos) (drift : List Int) : K :=
  makeG 0 (driftInBits drift) 0 0

/-- G (guid.go): globally unique 96-bit k-ordered identifier. -/
def G (clock : Chronos) (drift : List Int) (call : Nat) : K :=
  makeG clock.L (driftInBits drift) (clock.T call).1 (clock.T call).2

/-- L (guid.go): locally unique 64-bit k-order identifier. -/
def L (clock : Chronos) (drift : List Int) (call : Nat) : K :=
  makeL (driftInBits drift) (clock.T call).1 (clock.T call).2

/-- FromT (guid.go): converts a unix timestamp (int64 nanoseconds, cast to
uint64 by Go) to a local K-order value. -/
def FromT (t : Int) (drift : List Int) : K :=
  makeL (driftInBits drift) ((t % 2 ^ 64).toNat) 0

/-- Equal (guid.go). -/
def Equal (a b : K) : Bool :=
  a.Hi == b.Hi && a.Lo == b.Lo

/-- Before (guid.go). -/
def Before (a b : K) : Bool :=
  decide (a.Hi < b.Hi) || (a.Hi == b.Hi && decide (a.Lo < b.Lo))

/-- After (guid.go). -/
def After (a b : K) : Bool :=
  decide (a.Hi > b.Hi) || (a.Hi == b.Hi && decide (a.Lo > b.Lo))

/-- timeG (guid.go). -/
def timeG (uid : K) : Nat :=
  let d := add64 (shr64 uid.Hi 29) driftZ
  let a := sub64 (sub64 64 14) d
  let b := sub64 32 a
  let hi := shl64 (shr64 uid.Hi b) d
  let lo := shr64 (shl64 uid.Lo a) (sub64 64 d)
  shl64 (hi ||| lo) bitsSeqDrift

/-- timeL (guid.go). -/
def timeL (uid : K) : Nat :=
  shl64 (shr64 (shl64 uid.Lo 3) bitsSeqDrift) bitsSeqDrift

/-- Time (guid.go): the timestamp fraction of an identifier in nanoseconds. -/
def Time (uid : K) : Nat :=
  if uid.Hi == 0 then timeL uid else timeG uid

/-- Node (guid.go): the location fraction of an identifier. -/
def Node (uid : K) : Nat :=
  if uid.Hi == 0 then 0
  else
    let d := add64 (shr64 uid.Hi 29) driftZ
    let a := sub64 (sub64 64 14) d
    let b := sub64 32 a
    let lo := shr64 uid.Lo (add64 d bitsSeq)
    let hi := shr64 (shl64 uid.Hi (sub64 64 b)) (sub64 (sub64 64 b) a)
    hi ||| lo

/-- Seq (guid.go): the sequence fraction of an identifier. -/
def Seq (uid : K) : Nat := uid.Lo &&& 0x3fff

/-- Diff (guid.go): approximate distance between k-order UIDs. -/
def Diff (a b : K) : K :=
  let t := sub64 (Time a) (Time b)
  let s := sub64 (Seq a) (Seq b)
  if a.Hi ≠ 0 ∧ b.Hi ≠ 0 then
    makeG (Node a) (add64 (shr64 a.Hi 29) driftZ) t s
  else
    makeL (add64 (shr64 a.Lo 61) driftZ) t s

/-- One cell of the split loop body (chronos.go): the switch inside split,
including the Go byte conversions which truncate modulo 256. -/
def cellV (hi lo n a : Nat) : Nat :=
  let hilo := 64
  let b := a - n
  let mask := sub64 (shl64 1 n) 1
  if hilo ≤ a ∧ hilo ≤ b then (shr64 hi (b - hilo) &&& mask) % 256
  else if a ≤ hilo ∧ b ≤ hilo then (shr64 lo b &&& mask) % 256
  else if hilo < a ∧ b < hilo then
    let suffix := sub64 (shl64 1 (a - hilo)) 1
    let hi8 := (hi &&& suffix) % 256
    let lo8 := shr64 lo b % 256
    (hi8 <<< (hilo - b)) % 256 ||| lo8
  else 0

/-- The loop of split (chronos.go): for a := size; a >= n; a -= n. -/
def splitLoop (hi lo n a : Nat) : List Nat :=
  if h : 0 < n ∧ n ≤ a then cellV hi lo n a :: splitLoop hi lo n (a - n)
  else []
termination_by a
decreasing_by omega

/-- split (chronos.go): decomposes a pair of words into size / n cells of
n bits each, most significant first. -/
def split (hi lo size n : Nat) : List Nat :=
  splitLoop hi lo n size

/-- The loop of fold (chronos.go), accumulating the hi and lo words.  The
Go locals b = a - n, mask = 1 shl n - 1 and c = bytes[i] are inlined. -/
def foldLoop (n : Nat) (bytes : List Nat) (i a hi lo : Nat) : Nat × Nat :=
  if h : 0 < n ∧ n ≤ a then
    if 64 ≤ a ∧ 64 ≤ a - n then
      foldLoop n bytes (i + 1) (a - n)
        (hi ||| shl64 (bytes.getD i 0 &&& sub64 (shl64 1 n) 1) (a - n - 64)) lo
    else if a ≤ 64 ∧ a - n ≤ 64 then
      foldLoop n bytes (i + 1) (a - n) hi
        (lo ||| shl64 (bytes.getD i 0 &&& sub64 (shl64 1 n) 1) (a - n))
    else if 64 < a ∧ a - n < 64 then
      foldLoop n bytes (i + 1) (a - n)
        (hi ||| shr64 (bytes.getD i 0 &&& sub64 (shl64 1 n) 1) (64 - (a - n)))
        (lo ||| shl64 (bytes.getD i 0 &&& sub64 (shl64 1 n) 1) (a - n))
    else foldLoop n bytes (i + 1) (a - n) hi lo
  else (hi, lo)
termination_by a
decreasing_by all_goals omega

/-- fold (chronos.go): inverse of split. -/
def fold (size n : Nat) (bytes : List Nat) : Nat × Nat :=
  foldLoop n bytes 0 size 0 0

/-- FoldG (guid.go). -/
def FoldG (n : Nat) (bytes : List Nat) : K :=
  let p := fold 96 n bytes
  { Hi := p.1, Lo := p.2 }

/-- FoldL (guid.go). -/
def FoldL (n : Nat) (bytes : List Nat) : K :=
  let p := fold 64 n bytes
  { Hi := p.1, Lo := p.2 }

/-- Bytes (guid.go): 8 bytes for a local value, 12 bytes for a global. -/
def Bytes (uid : K) : List Nat :=
  if uid.Hi == 0 then split 0 uid.Lo 64 8
  else split uid.Hi uid.Lo 96 8

/-- The codec error surface of guid.go: fmt.Errorf malformed errors. -/
inductive CodecError where
  | malformed (val : List Nat)
deriving DecidableEq, Repr

/-- FromBytes (guid.go): dispatches on the input length. -/
def FromBytes (val : List Nat) : Except CodecError K :=
  if val.length = bytesInG then Except.ok (FoldG 8 val)
  else if val.length = bytesInL then Except.ok (FoldL 8 val)
  else Except.error (CodecError.malformed val)

/-- Byte-slice lexicographic strict order, as Go bytes.Compare yields -1. -/
def lexLtBytes : List Nat → List Nat → Bool
  | [], [] => false
  | [], _ :: _ => true
  | _ :: _, [] => false
  | x :: xs, y :: ys => decide (x < y) || (x == y && lexLtBytes xs ys)

/-- Clock of spec Scenario 1: T yields (1 shl 17, n) for n = 1, 2, 3, ... -/
def clockScenario1 : Chronos := ⟨0, fun i => (1 <<< 17, i + 1)⟩

/-- Clock of spec Scenario 2: node 0xffffffff, T yields (1 shl 17, seq). -/
def clockScenario2 : Chronos := ⟨0xffffffff, fun i => (1 <<< 17, i)⟩

/-- A clock with node id 1 and a large fixed timestamp, used on the 34 second
drift class where the global constructor can produce a value with Hi = 0. -/
def clockDrift18 : Chronos := ⟨1, fun _ => (1 <<< 35, 0)⟩

end Guid

deriving instance DecidableEq for Except

namespace Guid

/-! ### Arithmetic bridges for the uint64 primitives -/

theorem shr64_eq (x s : Nat) : shr64 x s = x / 2 ^ s := by
  simp [shr64, Nat.shiftRight_eq_div_pow]

theorem shl64_eq (x s : Nat) : shl64 x s = x * 2 ^ s % 2 ^ 64 := by
  simp [shl64, Nat.shiftLeft_eq]

theorem shl64_small {x s : Nat} (h : x * 2 ^ s < 2 ^ 64) : shl64 x s = x * 2 ^ s := by
  simp only [shl64, Nat.shiftLeft_eq]
  omega

theorem sub64_eq {x y : Nat} (h1 : y ≤ x) (h2 : x < 2 ^ 64) : sub64 x y = x - y := by
  unfold sub64; omega

theorem add64_eq {x y : Nat} (h : x + y < 2 ^ 64) : add64 x y = x + y := by
  unfold add64; omega

theorem and_mask14 (x : Nat) : x &&& 0x3fff = x % 2 ^ 14 := by
  have h := Nat.and_pow_two_sub_one_eq_mod x 14
  norm_num at h ⊢
  exact h

/-- Bitwise or of values occupying disjoint bit ranges is addition. -/
theorem lor_eq_add {x y : Nat} (i : Nat) (hx : x % 2 ^ i = 0) (hy : y < 2 ^ i) :
    x ||| y = x + y := by
  obtain ⟨a, ha⟩ := Nat.dvd_of_mod_eq_zero hx
  subst ha
  exact (Nat.mul_add_lt_is_or hy a).symm

theorem lor_eq_add2 {x y : Nat} (i : Nat) (hx : x % 2 ^ i = 0) (hy : y < 2 ^ i) :
    y ||| x = x + y := by
  rw [Nat.lor_comm]
  exact lor_eq_add i hx hy

theorem pow_mul_pow {i j k : Nat} (h : i = j + k) : (2 : Nat) ^ i = 2 ^ j * 2 ^ k := by
  subst h
  rw [pow_add]

/-- driftInBits always lands in the drift class range [18, 25]. -/
theorem driftInBits_range (drift : List Int) :
    18 ≤ driftInBits drift ∧ driftInBits drift ≤ 25 := by
  cases drift with
  | nil => norm_num [driftInBits, driftZ]
  | cons d tl =>
    simp only [driftInBits, driftZ]
    split_ifs <;> omega

/-! ### Claim theorems -/

/-- Claim C10: for every pair of identifiers, with arbitrary word values,
exactly one of Equal, Before, After holds, and After a b holds exactly when
Before b a holds. -/
theorem order_trichotomy_c10 (a b : K) :
    ((Equal a b = true ∧ Before a b = false ∧ After a b = false) ∨
     (Before a b = true ∧ Equal a b = false ∧ After a b = false) ∨
     (After a b = true ∧ Equal a b = false ∧ Before a b = false)) ∧
    After a b = Before b a := by
  unfold Equal Before After
  constructor
  · simp only [Bool.or_eq_true, Bool.or_eq_false_iff, Bool.and_eq_true,
      Bool.and_eq_false_iff, decide_eq_true_eq, decide_eq_false_iff_not,
      beq_iff_eq, beq_eq_false_iff_ne, ne_eq, gt_iff_lt, not_lt]
    omega
  · rw [Bool.eq_iff_iff]
    simp only [Bool.or_eq_true, Bool.and_eq_true, decide_eq_true_eq,
      beq_iff_eq, gt_iff_lt]
    omega

/-- Claim C6: the driftInBits table, evaluated top to bottom; the absent
branch agrees with the bound 274 seconds branch (both give 21). -/
theorem driftInBits_table_c6 :
    driftInBits [] = 21 ∧
    driftInBits [] = driftInBits [274 * second] ∧
    ∀ b : Int,
      (b ≤ 34 * second → driftInBits [b] = 18) ∧
      (34 * second < b → b ≤ 68 * second → driftInBits [b] = 19) ∧
      (68 * second < b → b ≤ 137 * second → driftInBits [b] = 20) ∧
      (137 * second < b → b ≤ 274 * second → driftInBits [b] = 21) ∧
      (274 * second < b → b ≤ 549 * second → driftInBits [b] = 22) ∧
      (549 * second < b → b ≤ 1099 * second → driftInBits [b] = 23) ∧
      (1099 * second < b → b ≤ 2199 * second → driftInBits [b] = 24) ∧
      (2199 * second < b → driftInBits [b] = 25) := by
  refine ⟨rfl, by decide, fun b => ?_⟩
  unfold driftInBits driftZ second
  norm_num
  split_ifs <;> omega

theorem driftInBits_table_c6_witness : driftInBits [50 * second] = 19 := by
  have h := (driftInBits_table_c6.2.2 (50 * second)).2.1
  exact h (by norm_num [second]) (by norm_num [second])

/-- Claim C5 (counterexample): with the Scenario 1 clock, whose T yields
(1 shl 17, n), the first identifier from L has Time equal to 1 shl 17, not 0
as the claim states. -/
theorem scenario1_time_c5_counterexample :
    Time (L clockScenario1 [] 0) = 131072 ∧ ¬ Time (L clockScenario1 [] 0) = 0 := by
  decide

/-- Claim C5 (amended): three successive L calls on the Scenario 1 clock are
strictly Before-ordered with sequences 1, 2, 3; each has Time 1 shl 17
(the input timestamp survives, since its low 17 bits are already zero). -/
theorem scenario1_c5 :
    Before (L clockScenario1 [] 0) (L clockScenario1 [] 1) = true ∧
    Before (L clockScenario1 [] 1) (L clockScenario1 [] 2) = true ∧
    Seq (L clockScenario1 [] 0) = 1 ∧
    Seq (L clockScenario1 [] 1) = 2 ∧
    Seq (L clockScenario1 [] 2) = 3 ∧
    Time (L clockScenario1 [] 0) = 131072 ∧
    Time (L clockScenario1 [] 1) = 131072 ∧
    Time (L clockScenario1 [] 2) = 131072 := by
  decide

/-- Claim C9: FromBytes is total and dispatches on length: 12 bytes decode
through the global fold, 8 bytes through the local fold (whose Hi word is
always 0), and any other length yields the malformed error. -/
theorem fromBytes_dispatch_c9 (val : List Nat) :
    (val.length = 12 → FromBytes val = Except.ok (FoldG 8 val)) ∧
    (val.length = 8 →
      FromBytes val = Except.ok (FoldL 8 val) ∧ (FoldL 8 val).Hi = 0) ∧
    (val.length ≠ 12 → val.length ≠ 8 →
      FromBytes val = Except.error (CodecError.malformed val)) := by
  refine ⟨fun h => ?_, fun h => ⟨?_, ?_⟩, fun h1 h2 => ?_⟩
  · simp [FromBytes, h, bytesInG]
  · simp [FromBytes, h, bytesInG, bytesInL]
  · simp [FoldL, fold, foldLoop]
  · simp [FromBytes, h1, h2, bytesInG, bytesInL]

theorem fromBytes_dispatch_c9_witness :
    FromBytes [0, 0, 0] = Except.error (CodecError.malformed [0, 0, 0]) ∧
    FromBytes [0, 0, 0, 0, 0, 0, 0, 0] =
      Except.ok (FoldL 8 [0, 0, 0, 0, 0, 0, 0, 0]) := by
  refine ⟨(fromBytes_dispatch_c9 [0, 0, 0]).2.2 (by decide) (by decide), ?_⟩
  exact ((fromBytes_dispatch_c9 [0, 0, 0, 0, 0, 0, 0, 0]).2.1 (by decide)).1

/-! ### Characterization of the bit surgery

With the drift class in [18, 25], a node id below 2^32, a sequence below
2^14 and any 64-bit timestamp, the packed words decompose into arithmetic
fields.  Throughout, x abbreviates the 47-bit timestamp t / 2^17. -/

theorem splitT_eq {t d : Nat} (ht : t < 2 ^ 64) (hd1 : 18 ≤ d) (hd2 : d ≤ 25) :
    splitT t d =
      ((d - 18) * 2 ^ 29 + t / 2 ^ 17 / 2 ^ d * 2 ^ (d - 18),
       t / 2 ^ 17 % 2 ^ d * 2 ^ 14) := by
  have hx : t / 2 ^ 17 < 2 ^ 47 := by omega
  simp only [splitT]
  have ha : sub64 (sub64 64 14) d = 50 - d := by unfold sub64; omega
  have hxv : shr64 t (14 + 3) = t / 2 ^ 17 := by rw [shr64_eq]
  rw [ha, hxv]
  have hb : sub64 32 (50 - d) = d - 18 := by unfold sub64; omega
  have hdz : sub64 d driftZ = d - 18 := by unfold sub64 driftZ; omega
  have h14 : add64 (50 - d) 14 = 64 - d := by unfold add64; omega
  rw [hb, hdz, h14]
  have hq : shr64 (t / 2 ^ 17) d = t / 2 ^ 17 / 2 ^ d := shr64_eq _ _
  rw [hq]
  have hqlt : t / 2 ^ 17 / 2 ^ d < 2 ^ (47 - d) := by
    rw [Nat.div_lt_iff_lt_mul (Nat.two_pow_pos d)]
    calc t / 2 ^ 17 < 2 ^ 47 := hx
      _ = 2 ^ (47 - d) * 2 ^ d := pow_mul_pow (by omega)
  have hmul29 : (2 : Nat) ^ (47 - d) * 2 ^ (d - 18) = 2 ^ 29 :=
    (pow_mul_pow (by omega : 29 = (47 - d) + (d - 18))).symm
  have hhiB : t / 2 ^ 17 / 2 ^ d * 2 ^ (d - 18) < 2 ^ 29 := by
    calc t / 2 ^ 17 / 2 ^ d * 2 ^ (d - 18) < 2 ^ (47 - d) * 2 ^ (d - 18) :=
          (Nat.mul_lt_mul_right (Nat.two_pow_pos _)).mpr hqlt
      _ = 2 ^ 29 := hmul29
  have hhi : shl64 (t / 2 ^ 17 / 2 ^ d) (d - 18) = t / 2 ^ 17 / 2 ^ d * 2 ^ (d - 18) :=
    shl64_small (by calc t / 2 ^ 17 / 2 ^ d * 2 ^ (d - 18) < 2 ^ 29 := hhiB
      _ < 2 ^ 64 := by norm_num)
  have hdd : shl64 (d - 18) 29 = (d - 18) * 2 ^ 29 := by
    apply shl64_small
    have h7 : d - 18 ≤ 7 := by omega
    calc (d - 18) * 2 ^ 29 ≤ 7 * 2 ^ 29 := Nat.mul_le_mul_right _ h7
      _ < 2 ^ 64 := by norm_num
  rw [hhi, hdd]
  have hor : t / 2 ^ 17 / 2 ^ d * 2 ^ (d - 18) ||| (d - 18) * 2 ^ 29 =
      (d - 18) * 2 ^ 29 + t / 2 ^ 17 / 2 ^ d * 2 ^ (d - 18) :=
    lor_eq_add2 29 (Nat.mul_mod_left _ _) hhiB
  rw [hor]
  have hlo : shr64 (shl64 (t / 2 ^ 17) (64 - d)) (50 - d) =
      t / 2 ^ 17 % 2 ^ d * 2 ^ 14 := by
    rw [shl64_eq, shr64_eq]
    have h64 : (2 : Nat) ^ 64 = 2 ^ d * 2 ^ (64 - d) := pow_mul_pow (by omega)
    rw [h64, Nat.mul_mod_mul_right]
    have h14b : (2 : Nat) ^ (64 - d) = 2 ^ 14 * 2 ^ (50 - d) := pow_mul_pow (by omega)
    rw [h14b, ← Nat.mul_assoc, Nat.mul_div_cancel _ (Nat.two_pow_pos (50 - d))]
  rw [hlo]

theorem splitNode_eq {n d : Nat} (hd1 : 18 ≤ d) (hd2 : d ≤ 25) :
    splitNode n d = (n / 2 ^ (50 - d), n % 2 ^ (50 - d) * 2 ^ (d + 14)) := by
  simp only [splitNode]
  have ha : sub64 (sub64 64 14) d = 50 - d := by unfold sub64; omega
  rw [ha]
  have hb : sub64 32 (50 - d) = d - 18 := by unfold sub64; omega
  rw [hb]
  have hc : sub64 32 (d - 18) = 50 - d := by unfold sub64; omega
  rw [hc]
  have hd14 : add64 d 14 = d + 14 := by unfold add64; omega
  rw [hd14]
  have hhi : shr64 n (50 - d) = n / 2 ^ (50 - d) := shr64_eq _ _
  have hlo : shl64 n (d + 14) = n % 2 ^ (50 - d) * 2 ^ (d + 14) := by
    rw [shl64_eq]
    have h64 : (2 : Nat) ^ 64 = 2 ^ (50 - d) * 2 ^ (d + 14) := pow_mul_pow (by omega)
    rw [h64, Nat.mul_mod_mul_right]
  rw [hhi, hlo]

/-- makeG packs drift, split time, node and sequence into disjoint fields. -/
theorem makeG_eq {n d t s : Nat} (hn : n < 2 ^ 32) (hs : s < 2 ^ 14)
    (ht : t < 2 ^ 64) (hd1 : 18 ≤ d) (hd2 : d ≤ 25) :
    makeG n d t s =
      { Hi := (d - 18) * 2 ^ 29 + t / 2 ^ 17 / 2 ^ d * 2 ^ (d - 18) + n / 2 ^ (50 - d),
        Lo := n % 2 ^ (50 - d) * 2 ^ (d + 14) + t / 2 ^ 17 % 2 ^ d * 2 ^ 14 + s } := by
  simp only [makeG, splitT_eq ht hd1 hd2, splitNode_eq hd1 hd2, K.mk.injEq]
  constructor
  · apply lor_eq_add (d - 18)
    · have h29 : (2 : Nat) ^ 29 = 2 ^ (29 - (d - 18)) * 2 ^ (d - 18) :=
        pow_mul_pow (by omega)
      rw [h29, ← Nat.mul_assoc, ← Nat.add_mul, Nat.mul_mod_left]
    · rw [Nat.div_lt_iff_lt_mul (Nat.two_pow_pos _)]
      calc n < 2 ^ 32 := hn
        _ = 2 ^ (d - 18) * 2 ^ (50 - d) := pow_mul_pow (by omega)
  · have h1 : n % 2 ^ (50 - d) * 2 ^ (d + 14) % 2 ^ (d + 14) = 0 := Nat.mul_mod_left _ _
    have h2 : t / 2 ^ 17 % 2 ^ d * 2 ^ 14 < 2 ^ (d + 14) := by
      have hdp : (2 : Nat) ^ (d + 14) = 2 ^ d * 2 ^ 14 := pow_mul_pow (by omega)
      rw [hdp]
      exact (Nat.mul_lt_mul_right (by norm_num)).mpr (Nat.mod_lt _ (Nat.two_pow_pos _))
    rw [lor_eq_add (d + 14) h1 h2]
    have h3 : (n % 2 ^ (50 - d) * 2 ^ (d + 14) + t / 2 ^ 17 % 2 ^ d * 2 ^ 14) % 2 ^ 14 = 0 := by
      have hdp : (2 : Nat) ^ (d + 14) = 2 ^ d * 2 ^ 14 := pow_mul_pow (by omega)
      rw [hdp, ← Nat.mul_assoc, ← Nat.add_mul, Nat.mul_mod_left]
    rw [lor_eq_add 14 h3 hs]

/-! ### Field extraction helpers -/

theorem mul_add_div_eq {a b m : Nat} (hm : 0 < m) (hb : b < m) : (a * m + b) / m = a := by
  rw [Nat.add_comm, Nat.add_mul_div_right _ _ hm, Nat.div_eq_of_lt hb, Nat.zero_add]

theorem mul_add_mod_eq {a b m : Nat} (hb : b < m) : (a * m + b) % m = b := by
  rw [Nat.mul_comm, Nat.mul_add_mod, Nat.mod_eq_of_lt hb]

theorem mul_pow_lt {a i j k : Nat} (ha : a < 2 ^ i) (hk : i + j = k) :
    a * 2 ^ j < 2 ^ k := by
  calc a * 2 ^ j < 2 ^ i * 2 ^ j := (Nat.mul_lt_mul_right (Nat.two_pow_pos _)).mpr ha
    _ = 2 ^ k := by rw [← pow_add, hk]

theorem mul_pow_le {a i j k : Nat} (ha : a < 2 ^ i) (hk : i + j = k) :
    a * 2 ^ j ≤ 2 ^ k - 2 ^ j := by
  have h : a * 2 ^ j ≤ (2 ^ i - 1) * 2 ^ j := Nat.mul_le_mul_right _ (by omega)
  have h2 : (2 ^ i - 1) * 2 ^ j = 2 ^ k - 2 ^ j := by
    rw [Nat.sub_mul, one_mul, ← pow_add, hk]
  omega

theorem div_pow_lt {x i j k : Nat} (hx : x < 2 ^ k) (hk : i + j = k) :
    x / 2 ^ j < 2 ^ i := by
  rw [Nat.div_lt_iff_lt_mul (Nat.two_pow_pos _)]
  calc x < 2 ^ k := hx
    _ = 2 ^ i * 2 ^ j := by rw [← pow_add, hk]

theorem sub64_idx1 {d : Nat} (hd2 : d ≤ 25) : sub64 (sub64 64 14) d = 50 - d := by
  unfold sub64; omega

theorem sub64_idx2 {d : Nat} (hd1 : 18 ≤ d) (hd2 : d ≤ 25) :
    sub64 32 (50 - d) = d - 18 := by
  unfold sub64; omega

theorem add64_idx {d : Nat} (hd1 : 18 ≤ d) (hd2 : d ≤ 25) :
    add64 (d - 18) driftZ = d := by
  unfold add64 driftZ; omega

theorem field_sum_lt {A B E M : Nat} (h1 : A ≤ M - E) (h2 : B < E) (hEM : E ≤ M) :
    A + B < M := by omega

theorem two_pow_le_two_pow {j k : Nat} (h : j ≤ k) : (2 : Nat) ^ j ≤ 2 ^ k :=
  Nat.pow_le_pow_right (by norm_num) h

/-- The drift class is recovered from bits [29..32) of the Hi word. -/
theorem hi_div29 {d Q Nq : Nat} (hd1 : 18 ≤ d) (hd2 : d ≤ 25)
    (hQ : Q < 2 ^ (47 - d)) (hNq : Nq < 2 ^ (d - 18)) :
    ((d - 18) * 2 ^ 29 + Q * 2 ^ (d - 18) + Nq) / 2 ^ 29 = d - 18 := by
  have h1 : Q * 2 ^ (d - 18) ≤ 2 ^ 29 - 2 ^ (d - 18) := mul_pow_le hQ (by omega)
  have hlt : Q * 2 ^ (d - 18) + Nq < 2 ^ 29 :=
    field_sum_lt h1 hNq (two_pow_le_two_pow (by omega))
  have hre : (d - 18) * 2 ^ 29 + Q * 2 ^ (d - 18) + Nq =
      2 ^ 29 * (d - 18) + (Q * 2 ^ (d - 18) + Nq) := by ring
  rw [hre, Nat.mul_add_div (by norm_num), Nat.div_eq_of_lt hlt, Nat.add_zero]

/-- The reassembled time word inside timeG on a decomposed global value. -/
theorem timeG_mk {d : Nat} (hd1 : 18 ≤ d) (hd2 : d ≤ 25) (Q Rm Nq Nr s : Nat)
    (hQ : Q < 2 ^ (47 - d)) (hRm : Rm < 2 ^ d) (hNq : Nq < 2 ^ (d - 18))
    (hNr : Nr < 2 ^ (50 - d)) (hs : s < 2 ^ 14) :
    timeG { Hi := (d - 18) * 2 ^ 29 + Q * 2 ^ (d - 18) + Nq,
            Lo := Nr * 2 ^ (d + 14) + Rm * 2 ^ 14 + s } = (Q * 2 ^ d + Rm) * 2 ^ 17 := by
  simp only [timeG]
  have e0 : shr64 ((d - 18) * 2 ^ 29 + Q * 2 ^ (d - 18) + Nq) 29 = d - 18 := by
    rw [shr64_eq]; exact hi_div29 hd1 hd2 hQ hNq
  rw [e0, add64_idx hd1 hd2, sub64_idx1 hd2, sub64_idx2 hd1 hd2]
  have hpack : (d - 18) * 2 ^ 29 + Q * 2 ^ (d - 18) + Nq =
      ((d - 18) * 2 ^ (47 - d) + Q) * 2 ^ (d - 18) + Nq := by
    have h29 : (2 : Nat) ^ 29 = 2 ^ (47 - d) * 2 ^ (d - 18) := pow_mul_pow (by omega)
    rw [h29]; ring
  have e6 : shr64 ((d - 18) * 2 ^ 29 + Q * 2 ^ (d - 18) + Nq) (d - 18) =
      (d - 18) * 2 ^ (47 - d) + Q := by
    rw [shr64_eq, hpack, mul_add_div_eq (Nat.two_pow_pos _) hNq]
  rw [e6]
  have hunpack : ((d - 18) * 2 ^ (47 - d) + Q) * 2 ^ d = (d - 18) * 2 ^ 47 + Q * 2 ^ d := by
    have h47 : (2 : Nat) ^ 47 = 2 ^ (47 - d) * 2 ^ d := pow_mul_pow (by omega)
    rw [h47]; ring
  have hQd : Q * 2 ^ d < 2 ^ 47 := mul_pow_lt hQ (by omega)
  have h7 : (d - 18) * 2 ^ 47 ≤ 7 * 2 ^ 47 := Nat.mul_le_mul_right _ (by omega)
  have e7 : shl64 ((d - 18) * 2 ^ (47 - d) + Q) d = (d - 18) * 2 ^ 47 + Q * 2 ^ d := by
    rw [shl64_eq, hunpack, Nat.mod_eq_of_lt (by omega)]
  rw [e7]
  have b2 : s * 2 ^ (50 - d) < 2 ^ (64 - d) := mul_pow_lt hs (by omega)
  have b1 : Rm * 2 ^ (64 - d) ≤ 2 ^ 64 - 2 ^ (64 - d) := mul_pow_le hRm (by omega)
  have e8 : shl64 (Nr * 2 ^ (d + 14) + Rm * 2 ^ 14 + s) (50 - d) =
      Rm * 2 ^ (64 - d) + s * 2 ^ (50 - d) := by
    rw [shl64_eq]
    have p1 : (2 : Nat) ^ (d + 14) * 2 ^ (50 - d) = 2 ^ 64 := by
      rw [← pow_add]; congr 1; omega
    have p2 : (2 : Nat) ^ 14 * 2 ^ (50 - d) = 2 ^ (64 - d) := by
      rw [← pow_add]; congr 1; omega
    have hexp : (Nr * 2 ^ (d + 14) + Rm * 2 ^ 14 + s) * 2 ^ (50 - d) =
        Nr * 2 ^ 64 + (Rm * 2 ^ (64 - d) + s * 2 ^ (50 - d)) := by
      calc (Nr * 2 ^ (d + 14) + Rm * 2 ^ 14 + s) * 2 ^ (50 - d) =
          Nr * (2 ^ (d + 14) * 2 ^ (50 - d)) + (Rm * (2 ^ 14 * 2 ^ (50 - d)) +
            s * 2 ^ (50 - d)) := by ring
        _ = Nr * 2 ^ 64 + (Rm * 2 ^ (64 - d) + s * 2 ^ (50 - d)) := by rw [p1, p2]
    rw [hexp]
    exact mul_add_mod_eq (field_sum_lt b1 b2 (two_pow_le_two_pow (by omega)))
  have e5 : sub64 64 d = 64 - d := by unfold sub64; omega
  rw [e5, e8]
  have e9 : shr64 (Rm * 2 ^ (64 - d) + s * 2 ^ (50 - d)) (64 - d) = Rm := by
    rw [shr64_eq, mul_add_div_eq (Nat.two_pow_pos _) b2]
  rw [e9]
  have e10 : (d - 18) * 2 ^ 47 + Q * 2 ^ d ||| Rm =
      (d - 18) * 2 ^ 47 + Q * 2 ^ d + Rm := by
    apply lor_eq_add d
    · rw [← hunpack]; exact Nat.mul_mod_left _ _
    · exact hRm
  rw [e10]
  rw [show bitsSeqDrift = 17 from rfl, shl64_eq]
  have hQdR : Q * 2 ^ d + Rm < 2 ^ 47 :=
    field_sum_lt (mul_pow_le hQ (by omega)) hRm (two_pow_le_two_pow (by omega))
  have hfin : ((d - 18) * 2 ^ 47 + Q * 2 ^ d + Rm) * 2 ^ 17 =
      (d - 18) * 2 ^ 64 + (Q * 2 ^ d + Rm) * 2 ^ 17 := by
    calc ((d - 18) * 2 ^ 47 + Q * 2 ^ d + Rm) * 2 ^ 17 =
        (d - 18) * (2 ^ 47 * 2 ^ 17) + (Q * 2 ^ d + Rm) * 2 ^ 17 := by ring
      _ = (d - 18) * 2 ^ 64 + (Q * 2 ^ d + Rm) * 2 ^ 17 := by norm_num
  rw [hfin]
  exact mul_add_mod_eq (mul_pow_lt hQdR (by omega))

/-- The reassembled node word inside Node on a decomposed global value. -/
theorem node_mk {d : Nat} (hd1 : 18 ≤ d) (hd2 : d ≤ 25) (Q Rm Nq Nr s : Nat)
    (hQ : Q < 2 ^ (47 - d)) (hRm : Rm < 2 ^ d) (hNq : Nq < 2 ^ (d - 18))
    (hNr : Nr < 2 ^ (50 - d)) (hs : s < 2 ^ 14)
    (hg : (d - 18) * 2 ^ 29 + Q * 2 ^ (d - 18) + Nq ≠ 0) :
    Node { Hi := (d - 18) * 2 ^ 29 + Q * 2 ^ (d - 18) + Nq,
           Lo := Nr * 2 ^ (d + 14) + Rm * 2 ^ 14 + s } = Nq * 2 ^ (50 - d) + Nr := by
  rw [Node, if_neg (by simpa using hg)]
  dsimp only
  have e0 : shr64 ((d - 18) * 2 ^ 29 + Q * 2 ^ (d - 18) + Nq) 29 = d - 18 := by
    rw [shr64_eq]; exact hi_div29 hd1 hd2 hQ hNq
  rw [e0, add64_idx hd1 hd2, sub64_idx1 hd2, sub64_idx2 hd1 hd2]
  have ed14 : add64 d bitsSeq = d + 14 := by unfold add64 bitsSeq; omega
  rw [ed14]
  have hRs : Rm * 2 ^ 14 + s < 2 ^ (d + 14) :=
    field_sum_lt (mul_pow_le hRm (by omega)) hs (two_pow_le_two_pow (by omega))
  have elo : shr64 (Nr * 2 ^ (d + 14) + Rm * 2 ^ 14 + s) (d + 14) = Nr := by
    rw [shr64_eq, Nat.add_assoc, mul_add_div_eq (Nat.two_pow_pos _) hRs]
  rw [elo]
  have eb1 : sub64 64 (d - 18) = 82 - d := by unfold sub64; omega
  rw [eb1]
  have eb2 : sub64 (82 - d) (50 - d) = 32 := by unfold sub64; omega
  rw [eb2]
  have hpack : (d - 18) * 2 ^ 29 + Q * 2 ^ (d - 18) + Nq =
      ((d - 18) * 2 ^ (47 - d) + Q) * 2 ^ (d - 18) + Nq := by
    have h29 : (2 : Nat) ^ 29 = 2 ^ (47 - d) * 2 ^ (d - 18) := pow_mul_pow (by omega)
    rw [h29]; ring
  have p1 : (2 : Nat) ^ (d - 18) * 2 ^ (82 - d) = 2 ^ 64 := by
    rw [← pow_add]; congr 1; omega
  have hNq82 : Nq * 2 ^ (82 - d) < 2 ^ 64 := by
    calc Nq * 2 ^ (82 - d) < 2 ^ (d - 18) * 2 ^ (82 - d) :=
          (Nat.mul_lt_mul_right (Nat.two_pow_pos _)).mpr hNq
      _ = 2 ^ 64 := p1
  have ehi : shl64 ((d - 18) * 2 ^ 29 + Q * 2 ^ (d - 18) + Nq) (82 - d) =
      Nq * 2 ^ (82 - d) := by
    rw [shl64_eq, hpack]
    have hexp : (((d - 18) * 2 ^ (47 - d) + Q) * 2 ^ (d - 18) + Nq) * 2 ^ (82 - d) =
        ((d - 18) * 2 ^ (47 - d) + Q) * 2 ^ 64 + Nq * 2 ^ (82 - d) := by
      calc (((d - 18) * 2 ^ (47 - d) + Q) * 2 ^ (d - 18) + Nq) * 2 ^ (82 - d) =
          ((d - 18) * 2 ^ (47 - d) + Q) * (2 ^ (d - 18) * 2 ^ (82 - d)) +
            Nq * 2 ^ (82 - d) := by ring
        _ = _ := by rw [p1]
    rw [hexp]
    exact mul_add_mod_eq hNq82
  rw [ehi]
  have ehi2 : shr64 (Nq * 2 ^ (82 - d)) 32 = Nq * 2 ^ (50 - d) := by
    rw [shr64_eq]
    have p : (2 : Nat) ^ (82 - d) = 2 ^ (50 - d) * 2 ^ 32 := pow_mul_pow (by omega)
    rw [p, ← Nat.mul_assoc, Nat.mul_div_cancel _ (Nat.two_pow_pos 32)]
  rw [ehi2]
  exact lor_eq_add (50 - d) (Nat.mul_mod_left _ _) hNr

/-! ### Lens and bound lemmas for makeG -/

theorem hi_lt_32 {D A B E : Nat} (hD : D ≤ 7) (hA : A ≤ 2 ^ 29 - E) (hB : B < E)
    (hE : E ≤ 2 ^ 29) : D * 2 ^ 29 + A + B < 2 ^ 32 := by omega

theorem lo_lt_64 {A B s E : Nat} (hA : A ≤ 2 ^ 64 - E) (hB : B ≤ E - 2 ^ 14)
    (hs : s < 2 ^ 14) (hE : E ≤ 2 ^ 64) (hE2 : 2 ^ 14 ≤ E) : A + B + s < 2 ^ 64 := by
  omega

theorem makeG_Hi_lt {n d t s : Nat} (hn : n < 2 ^ 32) (hs : s < 2 ^ 14)
    (ht : t < 2 ^ 64) (hd1 : 18 ≤ d) (hd2 : d ≤ 25) :
    (makeG n d t s).Hi < 2 ^ 32 := by
  rw [makeG_eq hn hs ht hd1 hd2]
  have hQ : t / 2 ^ 17 / 2 ^ d < 2 ^ (47 - d) :=
    div_pow_lt (show t / 2 ^ 17 < 2 ^ 47 by omega) (by omega)
  have hNq : n / 2 ^ (50 - d) < 2 ^ (d - 18) := div_pow_lt hn (by omega)
  exact hi_lt_32 (by omega) (mul_pow_le hQ (by omega)) hNq
    (two_pow_le_two_pow (by omega))

theorem makeG_Lo_lt {n d t s : Nat} (hn : n < 2 ^ 32) (hs : s < 2 ^ 14)
    (ht : t < 2 ^ 64) (hd1 : 18 ≤ d) (hd2 : d ≤ 25) :
    (makeG n d t s).Lo < 2 ^ 64 := by
  rw [makeG_eq hn hs ht hd1 hd2]
  have hNr : n % 2 ^ (50 - d) < 2 ^ (50 - d) := Nat.mod_lt _ (Nat.two_pow_pos _)
  have hRm : t / 2 ^ 17 % 2 ^ d < 2 ^ d := Nat.mod_lt _ (Nat.two_pow_pos _)
  exact lo_lt_64 (mul_pow_le hNr (by omega)) (mul_pow_le hRm (by omega)) hs
    (two_pow_le_two_pow (by omega)) (two_pow_le_two_pow (by omega))

theorem Seq_makeG {n d t s : Nat} (hn : n < 2 ^ 32) (hs : s < 2 ^ 14)
    (ht : t < 2 ^ 64) (hd1 : 18 ≤ d) (hd2 : d ≤ 25) :
    Seq (makeG n d t s) = s := by
  rw [makeG_eq hn hs ht hd1 hd2]
  simp only [Seq]
  rw [and_mask14]
  have hdp : (2 : Nat) ^ (d + 14) = 2 ^ d * 2 ^ 14 := pow_mul_pow (by omega)
  have hre : n % 2 ^ (50 - d) * 2 ^ (d + 14) + t / 2 ^ 17 % 2 ^ d * 2 ^ 14 + s =
      (n % 2 ^ (50 - d) * 2 ^ d + t / 2 ^ 17 % 2 ^ d) * 2 ^ 14 + s := by
    rw [hdp]; ring
  rw [hre, mul_add_mod_eq hs]

theorem Time_makeG {n d t s : Nat} (hn : n < 2 ^ 32) (hs : s < 2 ^ 14)
    (ht : t < 2 ^ 64) (hd1 : 18 ≤ d) (hd2 : d ≤ 25)
    (hg : (makeG n d t s).Hi ≠ 0) :
    Time (makeG n d t s) = t / 2 ^ 17 * 2 ^ 17 := by
  rw [makeG_eq hn hs ht hd1 hd2] at hg ⊢
  rw [Time, if_neg (by simpa using hg)]
  have hQ : t / 2 ^ 17 / 2 ^ d < 2 ^ (47 - d) :=
    div_pow_lt (show t / 2 ^ 17 < 2 ^ 47 by omega) (by omega)
  have hRm : t / 2 ^ 17 % 2 ^ d < 2 ^ d := Nat.mod_lt _ (Nat.two_pow_pos _)
  have hNq : n / 2 ^ (50 - d) < 2 ^ (d - 18) := div_pow_lt hn (by omega)
  have hNr : n % 2 ^ (50 - d) < 2 ^ (50 - d) := Nat.mod_lt _ (Nat.two_pow_pos _)
  rw [timeG_mk hd1 hd2 _ _ _ _ _ hQ hRm hNq hNr hs]
  congr 1
  rw [Nat.mul_comm]
  exact Nat.div_add_mod _ _

theorem Node_makeG {n d t s : Nat} (hn : n < 2 ^ 32) (hs : s < 2 ^ 14)
    (ht : t < 2 ^ 64) (hd1 : 18 ≤ d) (hd2 : d ≤ 25)
    (hg : (makeG n d t s).Hi ≠ 0) :
    Node (makeG n d t s) = n := by
  rw [makeG_eq hn hs ht hd1 hd2] at hg ⊢
  have hQ : t / 2 ^ 17 / 2 ^ d < 2 ^ (47 - d) :=
    div_pow_lt (show t / 2 ^ 17 < 2 ^ 47 by omega) (by omega)
  have hRm : t / 2 ^ 17 % 2 ^ d < 2 ^ d := Nat.mod_lt _ (Nat.two_pow_pos _)
  have hNq : n / 2 ^ (50 - d) < 2 ^ (d - 18) := div_pow_lt hn (by omega)
  have hNr : n % 2 ^ (50 - d) < 2 ^ (50 - d) := Nat.mod_lt _ (Nat.two_pow_pos _)
  rw [node_mk hd1 hd2 _ _ _ _ _ hQ hRm hNq hNr hs (by simpa using hg)]
  rw [Nat.mul_comm]
  exact Nat.div_add_mod _ _

theorem makeG_Hi_div29 {n d t s : Nat} (hn : n < 2 ^ 32) (hs : s < 2 ^ 14)
    (ht : t < 2 ^ 64) (hd1 : 18 ≤ d) (hd2 : d ≤ 25) :
    (makeG n d t s).Hi / 2 ^ 29 = d - 18 := by
  rw [makeG_eq hn hs ht hd1 hd2]
  exact hi_div29 hd1 hd2 (div_pow_lt (show t / 2 ^ 17 < 2 ^ 47 by omega) (by omega))
    (div_pow_lt hn (by omega))

theorem makeG_Hi_ne {n d t s : Nat} (hn : n < 2 ^ 32) (hs : s < 2 ^ 14)
    (ht : t < 2 ^ 64) (hd1 : 19 ≤ d) (hd2 : d ≤ 25) :
    (makeG n d t s).Hi ≠ 0 := by
  rw [makeG_eq hn hs ht (by omega) hd2]
  dsimp only
  have hpos : 0 < (d - 18) * 2 ^ 29 + t / 2 ^ 17 / 2 ^ d * 2 ^ (d - 18) + n / 2 ^ (50 - d) := by
    calc (0 : Nat) < (d - 18) * 2 ^ 29 := Nat.mul_pos (by omega) (by norm_num)
      _ ≤ (d - 18) * 2 ^ 29 + t / 2 ^ 17 / 2 ^ d * 2 ^ (d - 18) := Nat.le_add_right _ _
      _ ≤ (d - 18) * 2 ^ 29 + t / 2 ^ 17 / 2 ^ d * 2 ^ (d - 18) + n / 2 ^ (50 - d) :=
          Nat.le_add_right _ _
  exact hpos.ne'


/-- Claim C4 (counterexample): on the zero identifier with the default drift
class 21, the drift echo sits at bits [29..32) of Hi (value 3 = d - 18), but
the top three bits of the Hi word are zero, not 3: the two copies disagree
and the composition never ORs (d - 18) shifted by 61 into Hi. -/
theorem drift_bits_c4_counterexample :
    (Z clockScenario2 []).Hi >>> 29 = 3 ∧
    (Z clockScenario2 []).Hi >>> 61 = 0 ∧
    ¬ (Z clockScenario2 []).Hi >>> 61 = 3 := by decide

/-- Claim C4 (amended): for every global identifier built by makeG, the
drift value d - 18 is stored only at bits [29..32) of the Hi word; the top
three bits of Hi are zero, and Hi is the or (equal to the sum) of the high
time part, the drift echo at bit 29 and the high node part, with no
(d - 18) shifted by 61 contribution. -/
theorem drift_bits_c4 (l d t s : Nat) (hl : l < 2 ^ 32) (hs : s < 2 ^ 14)
    (ht : t < 2 ^ 64) (hd1 : 18 ≤ d) (hd2 : d ≤ 25) :
    (makeG l d t s).Hi >>> 29 = d - 18 ∧
    (makeG l d t s).Hi >>> 61 = 0 ∧
    (makeG l d t s).Hi =
      (d - 18) * 2 ^ 29 + t / 2 ^ 17 / 2 ^ d * 2 ^ (d - 18) + l / 2 ^ (50 - d) := by
  refine ⟨?_, ?_, ?_⟩
  · rw [Nat.shiftRight_eq_div_pow]
    exact makeG_Hi_div29 hl hs ht hd1 hd2
  · rw [Nat.shiftRight_eq_div_pow]
    have h := makeG_Hi_lt hl hs ht hd1 hd2
    exact Nat.div_eq_of_lt (lt_of_lt_of_le h (by norm_num))
  · rw [makeG_eq hl hs ht hd1 hd2]

theorem drift_bits_c4_witness :
    (makeG 5 19 (2 ^ 40) 7).Hi >>> 29 = 1 ∧
    (makeG 5 19 (2 ^ 40) 7).Hi >>> 61 = 0 := by
  have h := drift_bits_c4 5 19 (2 ^ 40) 7 (by decide) (by decide) (by decide)
    (by decide) (by decide)
  exact ⟨h.1, h.2.1⟩

/-- Claim C7 (counterexample): at drift class 18 (bound up to 34 seconds)
with a small timestamp, makeG produces a value with Hi = 0; the code then
reads it as local, so Node returns 0 instead of the packed node id and Time
returns node bits instead of the timestamp. -/
theorem lenses_c7_counterexample :
    Node (makeG 1 18 0 0) = 0 ∧
    ¬ Node (makeG 1 18 0 0) = 1 ∧
    ¬ Time (makeG 1 18 0 0) = 0 / 2 ^ 17 * 2 ^ 17 := by decide

/-- Claim C7 (amended): provided the constructed identifier is global
(its Hi word is nonzero), the lenses reverse the bit surgery of makeG:
Time recovers the timestamp truncated to 2^17 resolution, Node recovers
the node id and Seq recovers the sequence. -/
theorem lenses_c7 (l d t s : Nat) (hl : l < 2 ^ 32) (hs : s < 2 ^ 14)
    (ht : t < 2 ^ 64) (hd1 : 18 ≤ d) (hd2 : d ≤ 25)
    (hg : (makeG l d t s).Hi ≠ 0) :
    Time (makeG l d t s) = t / 2 ^ 17 * 2 ^ 17 ∧
    Node (makeG l d t s) = l ∧
    Seq (makeG l d t s) = s :=
  ⟨Time_makeG hl hs ht hd1 hd2 hg, Node_makeG hl hs ht hd1 hd2 hg,
    Seq_makeG hl hs ht hd1 hd2⟩

theorem lenses_c7_witness :
    Time (makeG 0xffffffff 21 (1 <<< 17) 0) = 1 <<< 17 ∧
    Node (makeG 0xffffffff 21 (1 <<< 17) 0) = 0xffffffff ∧
    Seq (makeG 0xffffffff 21 (1 <<< 17) 0) = 0 := by
  have h := lenses_c7 0xffffffff 21 (1 <<< 17) 0 (by decide) (by decide) (by decide)
    (by decide) (by decide) (by decide)
  exact ⟨h.1.trans (by decide), h.2.1, h.2.2⟩

/-- Diff against the drift-matching zero identifier restores the argument,
for drift classes at least 19. -/
theorem diff_zero_makeG {l d t s : Nat} (hl : l < 2 ^ 32) (hs : s < 2 ^ 14)
    (ht : t < 2 ^ 64) (hd1 : 19 ≤ d) (hd2 : d ≤ 25) :
    Time (Diff (makeG l d t s) (makeG 0 d 0 0)) = Time (makeG l d t s) ∧
    Seq (Diff (makeG l d t s) (makeG 0 d 0 0)) = Seq (makeG l d t s) ∧
    Node (Diff (makeG l d t s) (makeG 0 d 0 0)) = Node (makeG l d t s) := by
  have hd1a : 18 ≤ d := by omega
  have hz64 : (0 : Nat) < 2 ^ 64 := by norm_num
  have hz32 : (0 : Nat) < 2 ^ 32 := by norm_num
  have hz14 : (0 : Nat) < 2 ^ 14 := by norm_num
  have ha_ne : (makeG l d t s).Hi ≠ 0 := makeG_Hi_ne hl hs ht hd1 hd2
  have hz_ne : (makeG 0 d 0 0).Hi ≠ 0 := makeG_Hi_ne hz32 hz14 hz64 hd1 hd2
  have hdiff : Diff (makeG l d t s) (makeG 0 d 0 0) =
      makeG (Node (makeG l d t s)) (add64 (shr64 (makeG l d t s).Hi 29) driftZ)
        (sub64 (Time (makeG l d t s)) (Time (makeG 0 d 0 0)))
        (sub64 (Seq (makeG l d t s)) (Seq (makeG 0 d 0 0))) := by
    simp only [Diff]
    rw [if_pos ⟨ha_ne, hz_ne⟩]
  have hTa : Time (makeG l d t s) = t / 2 ^ 17 * 2 ^ 17 :=
    Time_makeG hl hs ht hd1a hd2 ha_ne
  have hTz : Time (makeG 0 d 0 0) = 0 := by
    have h := Time_makeG hz32 hz14 hz64 hd1a hd2 hz_ne
    simpa using h
  have hSa : Seq (makeG l d t s) = s := Seq_makeG hl hs ht hd1a hd2
  have hSz : Seq (makeG 0 d 0 0) = 0 := Seq_makeG hz32 hz14 hz64 hd1a hd2
  have hNa : Node (makeG l d t s) = l := Node_makeG hl hs ht hd1a hd2 ha_ne
  have hd29 : shr64 (makeG l d t s).Hi 29 = d - 18 := by
    rw [shr64_eq]
    exact makeG_Hi_div29 hl hs ht hd1a hd2
  have hmul : t / 2 ^ 17 * 2 ^ 17 ≤ t := Nat.div_mul_le_self _ _
  have hsub_t : sub64 (t / 2 ^ 17 * 2 ^ 17) 0 = t / 2 ^ 17 * 2 ^ 17 := by
    unfold sub64; omega
  have hsub_s : sub64 s 0 = s := by unfold sub64; omega
  rw [hdiff, hNa, hd29, add64_idx hd1a hd2, hTa, hTz, hSa, hSz, hsub_t, hsub_s]
  have ht2 : t / 2 ^ 17 * 2 ^ 17 < 2 ^ 64 := by omega
  have hg2 : (makeG l d (t / 2 ^ 17 * 2 ^ 17) s).Hi ≠ 0 := makeG_Hi_ne hl hs ht2 hd1 hd2
  refine ⟨?_, Seq_makeG hl hs ht2 hd1a hd2, ?_⟩
  · rw [Time_makeG hl hs ht2 hd1a hd2 hg2,
      Nat.mul_div_cancel _ (Nat.two_pow_pos 17)]
  · rw [Node_makeG hl hs ht2 hd1a hd2 hg2]

/-- Claim C8 (counterexample): on the 34 second drift class (d = 18) the
zero identifier has Hi = 0, so Diff takes the local path and loses the
node id: Node (Diff a z) = 0 while Node a = 1. -/
theorem diff_zero_c8_counterexample :
    Node (Diff (G clockDrift18 [30 * second] 0) (Z clockDrift18 [30 * second])) = 0 ∧
    ¬ Node (Diff (G clockDrift18 [30 * second] 0) (Z clockDrift18 [30 * second])) =
      Node (G clockDrift18 [30 * second] 0) := by decide

/-- Claim C8 (amended): for every drift bound whose class is at least 19
(bounds above 34 seconds) and every well-formed clock, Diff of a global
identifier against the drift-matching zero identifier preserves Time, Seq
and Node. -/
theorem diff_zero_c8 (clock : Chronos) (drift : List Int) (call : Nat)
    (hl : clock.L < 2 ^ 32) (ht : (clock.T call).1 < 2 ^ 64)
    (hs : (clock.T call).2 < 2 ^ 14) (hd : 19 ≤ driftInBits drift) :
    Time (Diff (G clock drift call) (Z clock drift)) = Time (G clock drift call) ∧
    Seq (Diff (G clock drift call) (Z clock drift)) = Seq (G clock drift call) ∧
    Node (Diff (G clock drift call) (Z clock drift)) = Node (G clock drift call) := by
  obtain ⟨hd1, hd2⟩ := driftInBits_range drift
  exact diff_zero_makeG hl hs ht hd hd2

theorem diff_zero_c8_witness :
    Time (Diff (G clockScenario2 [] 0) (Z clockScenario2 [])) =
      Time (G clockScenario2 [] 0) ∧
    Seq (Diff (G clockScenario2 [] 0) (Z clockScenario2 [])) =
      Seq (G clockScenario2 [] 0) ∧
    Node (Diff (G clockScenario2 [] 0) (Z clockScenario2 [])) =
      Node (G clockScenario2 [] 0) :=
  diff_zero_c8 clockScenario2 [] 0 (by decide) (by decide) (by decide) (by decide)

set_option maxRecDepth 4000

theorem and255 (x : Nat) : x &&& 255 = x % 256 := by
  have h := Nat.and_pow_two_sub_one_eq_mod x 8
  norm_num at h
  exact h

theorem splitLoop_step {hi lo n a : Nat} (h1 : 0 < n) (h2 : n ≤ a) :
    splitLoop hi lo n a = cellV hi lo n a :: splitLoop hi lo n (a - n) := by
  rw [splitLoop, dif_pos ⟨h1, h2⟩]

theorem splitLoop_nil {hi lo n a : Nat} (h : a < n) : splitLoop hi lo n a = [] := by
  rw [splitLoop, dif_neg (by omega)]

/-- The 12 bytes of a global identifier: the low 32 bits of Hi, then Lo,
both big endian. -/
theorem Bytes_global {uid : K} (hg : uid.Hi ≠ 0) :
    Bytes uid =
      [uid.Hi / 2 ^ 24 % 256, uid.Hi / 2 ^ 16 % 256, uid.Hi / 2 ^ 8 % 256, uid.Hi % 256,
       uid.Lo / 2 ^ 56 % 256, uid.Lo / 2 ^ 48 % 256, uid.Lo / 2 ^ 40 % 256,
       uid.Lo / 2 ^ 32 % 256, uid.Lo / 2 ^ 24 % 256, uid.Lo / 2 ^ 16 % 256,
       uid.Lo / 2 ^ 8 % 256, uid.Lo % 256] := by
  rw [Bytes, if_neg (by simpa using hg), split]
  iterate 12 rw [splitLoop_step (by norm_num) (by norm_num)]
  rw [splitLoop_nil (by norm_num)]
  norm_num [cellV, shr64_eq, shl64_eq, sub64, and255]

/-- The 8 bytes of a local identifier: Lo, big endian. -/
theorem Bytes_local {uid : K} (h0 : uid.Hi = 0) :
    Bytes uid =
      [uid.Lo / 2 ^ 56 % 256, uid.Lo / 2 ^ 48 % 256, uid.Lo / 2 ^ 40 % 256,
       uid.Lo / 2 ^ 32 % 256, uid.Lo / 2 ^ 24 % 256, uid.Lo / 2 ^ 16 % 256,
       uid.Lo / 2 ^ 8 % 256, uid.Lo % 256] := by
  rw [Bytes, if_pos (by simpa using h0), split]
  iterate 8 rw [splitLoop_step (by norm_num) (by norm_num)]
  rw [splitLoop_nil (by norm_num)]
  norm_num [cellV, shr64_eq, shl64_eq, sub64, and255]

/-- One digit-peeling step of base-256 lexicographic comparison. -/
theorem lex_acc (M xb yb xt yt : Nat) (hxb : xb < 256) (hyb : yb < 256)
    (hxt : xt < M) (hyt : yt < M) (hM : 0 < M) :
    (xb < yb ∨ (xb = yb ∧ xt < yt)) ↔ (xb * M + xt < yb * M + yt) := by
  have hstep : ∀ u v : Nat, u < v → u * M + M ≤ v * M := by
    intro u v huv
    calc u * M + M = (u + 1) * M := by ring
      _ ≤ v * M := Nat.mul_le_mul_right _ (by omega)
  constructor
  · rintro (h | ⟨h1, h2⟩)
    · have h3 := hstep _ _ h
      have h4 : yb * M ≤ yb * M + yt := Nat.le_add_right _ _
      omega
    · subst h1
      omega
  · intro h
    rcases Nat.lt_trichotomy xb yb with h1 | h1 | h1
    · exact Or.inl h1
    · subst h1
      refine Or.inr ⟨rfl, ?_⟩
      omega
    · exfalso
      have h3 := hstep _ _ h1
      omega

theorem lex_eq_acc (M xb yb xt yt : Nat) (hxb : xb < 256) (hyb : yb < 256)
    (hxt : xt < M) (hyt : yt < M) (hM : 0 < M) :
    (xb = yb ∧ xt = yt) ↔ (xb * M + xt = yb * M + yt) := by
  constructor
  · rintro ⟨h1, h2⟩
    rw [h1, h2]
  · intro h
    rcases Nat.lt_trichotomy xb yb with h1 | h1 | h1
    · exact absurd h
        (Nat.ne_of_lt ((lex_acc M xb yb xt yt hxb hyb hxt hyt hM).mp (Or.inl h1)))
    · subst h1
      refine ⟨rfl, ?_⟩
      omega
    · exact absurd h.symm
        (Nat.ne_of_lt ((lex_acc M yb xb yt xt hyb hxb hyt hxt hM).mp (Or.inl h1)))

/-- Digit-peeling step carrying an arbitrary tail proposition. -/
theorem lex_accP (M xb yb xt yt : Nat) {P : Prop} (hxb : xb < 256) (hyb : yb < 256)
    (hxt : xt < M) (hyt : yt < M) (hM : 0 < M) :
    (xb < yb ∨ (xb = yb ∧ (xt < yt ∨ (xt = yt ∧ P)))) ↔
      (xb * M + xt < yb * M + yt ∨ (xb * M + xt = yb * M + yt ∧ P)) := by
  rw [← lex_acc M xb yb xt yt hxb hyb hxt hyt hM,
    ← lex_eq_acc M xb yb xt yt hxb hyb hxt hyt hM]
  tauto

/-- Byte lexicographic order on two global encodings is the lexicographic
order of the word pairs. -/
theorem lexLt_global {a b : K} (hg1 : a.Hi ≠ 0) (hg2 : b.Hi ≠ 0)
    (hb1 : a.Hi < 2 ^ 32) (hb2 : b.Hi < 2 ^ 32)
    (hl1 : a.Lo < 2 ^ 64) (hl2 : b.Lo < 2 ^ 64) :
    (lexLtBytes (Bytes a) (Bytes b) = true) ↔
      (a.Hi < b.Hi ∨ (a.Hi = b.Hi ∧ a.Lo < b.Lo)) := by
  rw [Bytes_global hg1, Bytes_global hg2]
  simp only [lexLtBytes, Bool.or_eq_true, Bool.and_eq_true, decide_eq_true_eq,
    beq_iff_eq, Bool.false_eq_true, and_false, or_false]
  have s1 : (a.Lo / 2 ^ 8 % 256 < b.Lo / 2 ^ 8 % 256 ∨
      (a.Lo / 2 ^ 8 % 256 = b.Lo / 2 ^ 8 % 256 ∧ a.Lo % 256 < b.Lo % 256)) ↔
      a.Lo % 2 ^ 16 < b.Lo % 2 ^ 16 := by
    rw [lex_acc 256 _ _ _ _ (by omega) (by omega) (by omega) (by omega) (by norm_num)]
    have e1 : a.Lo / 2 ^ 8 % 256 * 256 + a.Lo % 256 = a.Lo % 2 ^ 16 := by omega
    have e2 : b.Lo / 2 ^ 8 % 256 * 256 + b.Lo % 256 = b.Lo % 2 ^ 16 := by omega
    rw [e1, e2]
  rw [s1]
  have s2 : (a.Lo / 2 ^ 16 % 256 < b.Lo / 2 ^ 16 % 256 ∨
      (a.Lo / 2 ^ 16 % 256 = b.Lo / 2 ^ 16 % 256 ∧ a.Lo % 2 ^ 16 < b.Lo % 2 ^ 16)) ↔
      a.Lo % 2 ^ 24 < b.Lo % 2 ^ 24 := by
    rw [lex_acc (2 ^ 16) _ _ _ _ (by omega) (by omega) (by omega) (by omega) (by norm_num)]
    have e1 : a.Lo / 2 ^ 16 % 256 * 2 ^ 16 + a.Lo % 2 ^ 16 = a.Lo % 2 ^ 24 := by omega
    have e2 : b.Lo / 2 ^ 16 % 256 * 2 ^ 16 + b.Lo % 2 ^ 16 = b.Lo % 2 ^ 24 := by omega
    rw [e1, e2]
  rw [s2]
  have s3 : (a.Lo / 2 ^ 24 % 256 < b.Lo / 2 ^ 24 % 256 ∨
      (a.Lo / 2 ^ 24 % 256 = b.Lo / 2 ^ 24 % 256 ∧ a.Lo % 2 ^ 24 < b.Lo % 2 ^ 24)) ↔
      a.Lo % 2 ^ 32 < b.Lo % 2 ^ 32 := by
    rw [lex_acc (2 ^ 24) _ _ _ _ (by omega) (by omega) (by omega) (by omega) (by norm_num)]
    have e1 : a.Lo / 2 ^ 24 % 256 * 2 ^ 24 + a.Lo % 2 ^ 24 = a.Lo % 2 ^ 32 := by omega
    have e2 : b.Lo / 2 ^ 24 % 256 * 2 ^ 24 + b.Lo % 2 ^ 24 = b.Lo % 2 ^ 32 := by omega
    rw [e1, e2]
  rw [s3]
  have s4 : (a.Lo / 2 ^ 32 % 256 < b.Lo / 2 ^ 32 % 256 ∨
      (a.Lo / 2 ^ 32 % 256 = b.Lo / 2 ^ 32 % 256 ∧ a.Lo % 2 ^ 32 < b.Lo % 2 ^ 32)) ↔
      a.Lo % 2 ^ 40 < b.Lo % 2 ^ 40 := by
    rw [lex_acc (2 ^ 32) _ _ _ _ (by omega) (by omega) (by omega) (by omega) (by norm_num)]
    have e1 : a.Lo / 2 ^ 32 % 256 * 2 ^ 32 + a.Lo % 2 ^ 32 = a.Lo % 2 ^ 40 := by omega
    have e2 : b.Lo / 2 ^ 32 % 256 * 2 ^ 32 + b.Lo % 2 ^ 32 = b.Lo % 2 ^ 40 := by omega
    rw [e1, e2]
  rw [s4]
  have s5 : (a.Lo / 2 ^ 40 % 256 < b.Lo / 2 ^ 40 % 256 ∨
      (a.Lo / 2 ^ 40 % 256 = b.Lo / 2 ^ 40 % 256 ∧ a.Lo % 2 ^ 40 < b.Lo % 2 ^ 40)) ↔
      a.Lo % 2 ^ 48 < b.Lo % 2 ^ 48 := by
    rw [lex_acc (2 ^ 40) _ _ _ _ (by omega) (by omega) (by omega) (by omega) (by norm_num)]
    have e1 : a.Lo / 2 ^ 40 % 256 * 2 ^ 40 + a.Lo % 2 ^ 40 = a.Lo % 2 ^ 48 := by omega
    have e2 : b.Lo / 2 ^ 40 % 256 * 2 ^ 40 + b.Lo % 2 ^ 40 = b.Lo % 2 ^ 48 := by omega
    rw [e1, e2]
  rw [s5]
  have s6 : (a.Lo / 2 ^ 48 % 256 < b.Lo / 2 ^ 48 % 256 ∨
      (a.Lo / 2 ^ 48 % 256 = b.Lo / 2 ^ 48 % 256 ∧ a.Lo % 2 ^ 48 < b.Lo % 2 ^ 48)) ↔
      a.Lo % 2 ^ 56 < b.Lo % 2 ^ 56 := by
    rw [lex_acc (2 ^ 48) _ _ _ _ (by omega) (by omega) (by omega) (by omega) (by norm_num)]
    have e1 : a.Lo / 2 ^ 48 % 256 * 2 ^ 48 + a.Lo % 2 ^ 48 = a.Lo % 2 ^ 56 := by omega
    have e2 : b.Lo / 2 ^ 48 % 256 * 2 ^ 48 + b.Lo % 2 ^ 48 = b.Lo % 2 ^ 56 := by omega
    rw [e1, e2]
  rw [s6]
  have s7 : (a.Lo / 2 ^ 56 % 256 < b.Lo / 2 ^ 56 % 256 ∨
      (a.Lo / 2 ^ 56 % 256 = b.Lo / 2 ^ 56 % 256 ∧ a.Lo % 2 ^ 56 < b.Lo % 2 ^ 56)) ↔
      a.Lo < b.Lo := by
    rw [lex_acc (2 ^ 56) _ _ _ _ (by omega) (by omega) (by omega) (by omega) (by norm_num)]
    have e1 : a.Lo / 2 ^ 56 % 256 * 2 ^ 56 + a.Lo % 2 ^ 56 = a.Lo := by omega
    have e2 : b.Lo / 2 ^ 56 % 256 * 2 ^ 56 + b.Lo % 2 ^ 56 = b.Lo := by omega
    rw [e1, e2]
  rw [s7]
  have p1 : (a.Hi / 2 ^ 8 % 256 < b.Hi / 2 ^ 8 % 256 ∨
      (a.Hi / 2 ^ 8 % 256 = b.Hi / 2 ^ 8 % 256 ∧
        (a.Hi % 256 < b.Hi % 256 ∨ (a.Hi % 256 = b.Hi % 256 ∧ a.Lo < b.Lo)))) ↔
      (a.Hi % 2 ^ 16 < b.Hi % 2 ^ 16 ∨
        (a.Hi % 2 ^ 16 = b.Hi % 2 ^ 16 ∧ a.Lo < b.Lo)) := by
    rw [lex_accP 256 _ _ _ _ (by omega) (by omega) (by omega) (by omega) (by norm_num)]
    have e1 : a.Hi / 2 ^ 8 % 256 * 256 + a.Hi % 256 = a.Hi % 2 ^ 16 := by omega
    have e2 : b.Hi / 2 ^ 8 % 256 * 256 + b.Hi % 256 = b.Hi % 2 ^ 16 := by omega
    rw [e1, e2]
  rw [p1]
  have p2 : (a.Hi / 2 ^ 16 % 256 < b.Hi / 2 ^ 16 % 256 ∨
      (a.Hi / 2 ^ 16 % 256 = b.Hi / 2 ^ 16 % 256 ∧
        (a.Hi % 2 ^ 16 < b.Hi % 2 ^ 16 ∨
          (a.Hi % 2 ^ 16 = b.Hi % 2 ^ 16 ∧ a.Lo < b.Lo)))) ↔
      (a.Hi % 2 ^ 24 < b.Hi % 2 ^ 24 ∨
        (a.Hi % 2 ^ 24 = b.Hi % 2 ^ 24 ∧ a.Lo < b.Lo)) := by
    rw [lex_accP (2 ^ 16) _ _ _ _ (by omega) (by omega) (by omega) (by omega) (by norm_num)]
    have e1 : a.Hi / 2 ^ 16 % 256 * 2 ^ 16 + a.Hi % 2 ^ 16 = a.Hi % 2 ^ 24 := by omega
    have e2 : b.Hi / 2 ^ 16 % 256 * 2 ^ 16 + b.Hi % 2 ^ 16 = b.Hi % 2 ^ 24 := by omega
    rw [e1, e2]
  rw [p2]
  have p3 : (a.Hi / 2 ^ 24 % 256 < b.Hi / 2 ^ 24 % 256 ∨
      (a.Hi / 2 ^ 24 % 256 = b.Hi / 2 ^ 24 % 256 ∧
        (a.Hi % 2 ^ 24 < b.Hi % 2 ^ 24 ∨
          (a.Hi % 2 ^ 24 = b.Hi % 2 ^ 24 ∧ a.Lo < b.Lo)))) ↔
      (a.Hi < b.Hi ∨ (a.Hi = b.Hi ∧ a.Lo < b.Lo)) := by
    rw [lex_accP (2 ^ 24) _ _ _ _ (by omega) (by omega) (by omega) (by omega) (by norm_num)]
    have e1 : a.Hi / 2 ^ 24 % 256 * 2 ^ 24 + a.Hi % 2 ^ 24 = a.Hi := by omega
    have e2 : b.Hi / 2 ^ 24 % 256 * 2 ^ 24 + b.Hi % 2 ^ 24 = b.Hi := by omega
    rw [e1, e2]
  rw [p3]

/-- Claim C2: Before is strict lexicographic order on the word pair, and on
well-formed global identifiers produced by makeG it coincides with byte
lexicographic order of the Bytes encodings. -/
theorem before_bytes_c2 (n1 d1 t1 s1 n2 d2 t2 s2 : Nat)
    (hn1 : n1 < 2 ^ 32) (hs1 : s1 < 2 ^ 14) (ht1 : t1 < 2 ^ 64)
    (hd11 : 18 ≤ d1) (hd12 : d1 ≤ 25)
    (hn2 : n2 < 2 ^ 32) (hs2 : s2 < 2 ^ 14) (ht2 : t2 < 2 ^ 64)
    (hd21 : 18 ≤ d2) (hd22 : d2 ≤ 25)
    (hg1 : (makeG n1 d1 t1 s1).Hi ≠ 0) (hg2 : (makeG n2 d2 t2 s2).Hi ≠ 0) :
    (∀ x y : K, Before x y = true ↔ (x.Hi < y.Hi ∨ (x.Hi = y.Hi ∧ x.Lo < y.Lo))) ∧
    (Before (makeG n1 d1 t1 s1) (makeG n2 d2 t2 s2) = true ↔
      lexLtBytes (Bytes (makeG n1 d1 t1 s1)) (Bytes (makeG n2 d2 t2 s2)) = true) := by
  have hBefore : ∀ x y : K,
      Before x y = true ↔ (x.Hi < y.Hi ∨ (x.Hi = y.Hi ∧ x.Lo < y.Lo)) := by
    intro x y
    simp only [Before, Bool.or_eq_true, Bool.and_eq_true, decide_eq_true_eq, beq_iff_eq]
  refine ⟨hBefore, ?_⟩
  rw [hBefore, lexLt_global hg1 hg2 (makeG_Hi_lt hn1 hs1 ht1 hd11 hd12)
    (makeG_Hi_lt hn2 hs2 ht2 hd21 hd22) (makeG_Lo_lt hn1 hs1 ht1 hd11 hd12)
    (makeG_Lo_lt hn2 hs2 ht2 hd21 hd22)]

theorem before_bytes_c2_witness :
    (Before (makeG 7 19 (2 ^ 40) 3) (makeG 7 19 (2 ^ 40) 3) = true ↔
      (makeG 7 19 (2 ^ 40) 3).Hi < (makeG 7 19 (2 ^ 40) 3).Hi ∨
        ((makeG 7 19 (2 ^ 40) 3).Hi = (makeG 7 19 (2 ^ 40) 3).Hi ∧
          (makeG 7 19 (2 ^ 40) 3).Lo < (makeG 7 19 (2 ^ 40) 3).Lo)) ∧
    (Before (makeG 7 19 (2 ^ 40) 3) (makeG 5 19 (2 ^ 50) 2) = true ↔
      lexLtBytes (Bytes (makeG 7 19 (2 ^ 40) 3)) (Bytes (makeG 5 19 (2 ^ 50) 2)) = true) := by
  have h := before_bytes_c2 7 19 (2 ^ 40) 3 5 19 (2 ^ 50) 2
    (by decide) (by decide) (by decide) (by decide) (by decide)
    (by decide) (by decide) (by decide) (by decide) (by decide)
    (by decide) (by decide)
  exact ⟨h.1 _ _, h.2⟩

/-- Claim C1: two globals with the same drift class whose timestamps differ
by more than 2 ^ (d + 17) nanoseconds are ordered by time, both under
Before and under byte lexicographic order of Bytes, whatever the node ids
and sequences are. -/
theorem drift_order_c1 (n1 n2 s1 s2 d t1 t2 : Nat)
    (hn1 : n1 < 2 ^ 32) (hn2 : n2 < 2 ^ 32) (hs1 : s1 < 2 ^ 14) (hs2 : s2 < 2 ^ 14)
    (hd1 : 18 ≤ d) (hd2 : d ≤ 25) (ht1 : t1 < 2 ^ 64) (ht2 : t2 < 2 ^ 64)
    (hgap : t1 + 2 ^ (d + 17) < t2)
    (hg1 : (makeG n1 d t1 s1).Hi ≠ 0) (hg2 : (makeG n2 d t2 s2).Hi ≠ 0) :
    Before (makeG n1 d t1 s1) (makeG n2 d t2 s2) = true ∧
    lexLtBytes (Bytes (makeG n1 d t1 s1)) (Bytes (makeG n2 d t2 s2)) = true := by
  have hQlt : t1 / 2 ^ 17 / 2 ^ d < t2 / 2 ^ 17 / 2 ^ d := by
    have h1 : (t1 + 2 ^ (d + 17)) / 2 ^ 17 = t1 / 2 ^ 17 + 2 ^ d := by
      have hp : (2 : Nat) ^ (d + 17) = 2 ^ d * 2 ^ 17 := pow_mul_pow (by omega)
      rw [hp, Nat.add_mul_div_right _ _ (Nat.two_pow_pos 17)]
    have h2 : t1 / 2 ^ 17 + 2 ^ d ≤ t2 / 2 ^ 17 := by
      rw [← h1]
      exact Nat.div_le_div_right (le_of_lt hgap)
    have h3 : (t1 / 2 ^ 17 + 2 ^ d) / 2 ^ d = t1 / 2 ^ 17 / 2 ^ d + 1 :=
      Nat.add_div_right _ (Nat.two_pow_pos d)
    have h4 : (t1 / 2 ^ 17 + 2 ^ d) / 2 ^ d ≤ t2 / 2 ^ 17 / 2 ^ d :=
      Nat.div_le_div_right h2
    rw [h3] at h4
    omega
  have hkey : (makeG n1 d t1 s1).Hi < (makeG n2 d t2 s2).Hi := by
    rw [makeG_eq hn1 hs1 ht1 hd1 hd2, makeG_eq hn2 hs2 ht2 hd1 hd2]
    dsimp only
    have hN1 : n1 / 2 ^ (50 - d) < 2 ^ (d - 18) := div_pow_lt hn1 (by omega)
    have hstep : t1 / 2 ^ 17 / 2 ^ d * 2 ^ (d - 18) + n1 / 2 ^ (50 - d) <
        t2 / 2 ^ 17 / 2 ^ d * 2 ^ (d - 18) := by
      calc t1 / 2 ^ 17 / 2 ^ d * 2 ^ (d - 18) + n1 / 2 ^ (50 - d) <
          t1 / 2 ^ 17 / 2 ^ d * 2 ^ (d - 18) + 2 ^ (d - 18) :=
            Nat.add_lt_add_left hN1 _
        _ = (t1 / 2 ^ 17 / 2 ^ d + 1) * 2 ^ (d - 18) := by ring
        _ ≤ t2 / 2 ^ 17 / 2 ^ d * 2 ^ (d - 18) :=
            Nat.mul_le_mul_right _ (by omega)
    calc (d - 18) * 2 ^ 29 + t1 / 2 ^ 17 / 2 ^ d * 2 ^ (d - 18) + n1 / 2 ^ (50 - d) =
        (d - 18) * 2 ^ 29 + (t1 / 2 ^ 17 / 2 ^ d * 2 ^ (d - 18) + n1 / 2 ^ (50 - d)) := by
          ring
      _ < (d - 18) * 2 ^ 29 + t2 / 2 ^ 17 / 2 ^ d * 2 ^ (d - 18) :=
          Nat.add_lt_add_left hstep _
      _ ≤ (d - 18) * 2 ^ 29 + t2 / 2 ^ 17 / 2 ^ d * 2 ^ (d - 18) + n2 / 2 ^ (50 - d) :=
          Nat.le_add_right _ _
  constructor
  · simp only [Before, Bool.or_eq_true, Bool.and_eq_true, decide_eq_true_eq, beq_iff_eq]
    exact Or.inl hkey
  · rw [lexLt_global hg1 hg2 (makeG_Hi_lt hn1 hs1 ht1 hd1 hd2)
      (makeG_Hi_lt hn2 hs2 ht2 hd1 hd2) (makeG_Lo_lt hn1 hs1 ht1 hd1 hd2)
      (makeG_Lo_lt hn2 hs2 ht2 hd1 hd2)]
    exact Or.inl hkey

theorem drift_order_c1_witness :
    Before (makeG 0xffffffff 21 0 100) (makeG 5 21 (2 ^ 39) 0) = true ∧
    lexLtBytes (Bytes (makeG 0xffffffff 21 0 100)) (Bytes (makeG 5 21 (2 ^ 39) 0)) = true :=
  drift_order_c1 0xffffffff 5 100 0 21 0 (2 ^ 39)
    (by decide) (by decide) (by decide) (by decide) (by decide) (by decide)
    (by decide) (by decide) (by decide) (by decide) (by decide)

theorem foldLoop_stepHi {n : Nat} {bytes : List Nat} {i a hi lo : Nat}
    (h1 : 0 < n) (h2 : n ≤ a) (h3 : 64 ≤ a - n) :
    foldLoop n bytes i a hi lo =
      foldLoop n bytes (i + 1) (a - n)
        (hi ||| shl64 (bytes.getD i 0 &&& sub64 (shl64 1 n) 1) (a - n - 64)) lo := by
  rw [foldLoop, dif_pos ⟨h1, h2⟩, if_pos ⟨by omega, h3⟩]

theorem foldLoop_stepLo {n : Nat} {bytes : List Nat} {i a hi lo : Nat}
    (h1 : 0 < n) (h2 : n ≤ a) (h3 : a ≤ 64) :
    foldLoop n bytes i a hi lo =
      foldLoop n bytes (i + 1) (a - n) hi
        (lo ||| shl64 (bytes.getD i 0 &&& sub64 (shl64 1 n) 1) (a - n)) := by
  rw [foldLoop, dif_pos ⟨h1, h2⟩, if_neg (by omega), if_pos ⟨h3, by omega⟩]

theorem foldLoop_fin {n : Nat} {bytes : List Nat} {i a hi lo : Nat} (h : a < n) :
    foldLoop n bytes i a hi lo = (hi, lo) := by
  rw [foldLoop, dif_neg (by omega)]

theorem or4_bytes {x0 x1 x2 x3 : Nat} (h0 : x0 % 2 ^ 24 = 0) (h1 : x1 % 2 ^ 16 = 0)
    (h1b : x1 < 2 ^ 24) (h2 : x2 % 2 ^ 8 = 0) (h2b : x2 < 2 ^ 16) (h3 : x3 < 2 ^ 8) :
    x0 ||| x1 ||| x2 ||| x3 = x0 + x1 + x2 + x3 := by
  rw [lor_eq_add 24 h0 h1b, lor_eq_add 16 (by omega) h2b, lor_eq_add 8 (by omega) h3]

theorem or8_bytes {x0 x1 x2 x3 x4 x5 x6 x7 : Nat}
    (h0 : x0 % 2 ^ 56 = 0)
    (h1 : x1 % 2 ^ 48 = 0) (h1b : x1 < 2 ^ 56)
    (h2 : x2 % 2 ^ 40 = 0) (h2b : x2 < 2 ^ 48)
    (h3 : x3 % 2 ^ 32 = 0) (h3b : x3 < 2 ^ 40)
    (h4 : x4 % 2 ^ 24 = 0) (h4b : x4 < 2 ^ 32)
    (h5 : x5 % 2 ^ 16 = 0) (h5b : x5 < 2 ^ 24)
    (h6 : x6 % 2 ^ 8 = 0) (h6b : x6 < 2 ^ 16)
    (h7 : x7 < 2 ^ 8) :
    x0 ||| x1 ||| x2 ||| x3 ||| x4 ||| x5 ||| x6 ||| x7 =
      x0 + x1 + x2 + x3 + x4 + x5 + x6 + x7 := by
  rw [lor_eq_add 56 h0 h1b, lor_eq_add 48 (by omega) h2b,
    lor_eq_add 40 (by omega) h3b, lor_eq_add 32 (by omega) h4b,
    lor_eq_add 24 (by omega) h5b, lor_eq_add 16 (by omega) h6b,
    lor_eq_add 8 (by omega) h7]

/-- Claim C3: Bytes yields 12 bytes for a global identifier and 8 for a
local one, and FromBytes inverts Bytes on every well-formed identifier. -/
theorem bytes_roundtrip_c3 (uid : K) (hb : uid.Hi < 2 ^ 32) (hl : uid.Lo < 2 ^ 64) :
    (uid.Hi ≠ 0 → (Bytes uid).length = 12) ∧
    (uid.Hi = 0 → (Bytes uid).length = 8) ∧
    FromBytes (Bytes uid) = Except.ok uid := by
  by_cases hg : uid.Hi = 0
  · refine ⟨fun h => absurd hg h, fun _ => ?_, ?_⟩
    · rw [Bytes_local hg]
      rfl
    · rw [Bytes_local hg, FromBytes]
      norm_num [bytesInG, bytesInL, FoldL, fold]
      iterate 8 rw [foldLoop_stepLo (by norm_num) (by norm_num) (by norm_num)]
      rw [foldLoop_fin (by norm_num)]
      have heta : uid = { Hi := uid.Hi, Lo := uid.Lo } := rfl
      rw [heta, hg, K.mk.injEq]
      refine ⟨rfl, ?_⟩
      norm_num [List.getD, shl64_eq, sub64, and255]
      rw [or8_bytes (by omega) (by omega) (by omega) (by omega) (by omega)
        (by omega) (by omega) (by omega) (by omega) (by omega) (by omega)
        (by omega) (by omega) (by omega)]
      omega
  · refine ⟨fun _ => ?_, fun h => absurd h hg, ?_⟩
    · rw [Bytes_global hg]
      rfl
    · rw [Bytes_global hg, FromBytes]
      norm_num [bytesInG, bytesInL, FoldG, fold]
      iterate 4 rw [foldLoop_stepHi (by norm_num) (by norm_num) (by norm_num)]
      iterate 8 rw [foldLoop_stepLo (by norm_num) (by norm_num) (by norm_num)]
      rw [foldLoop_fin (by norm_num)]
      have heta : uid = { Hi := uid.Hi, Lo := uid.Lo } := rfl
      rw [heta, K.mk.injEq]
      constructor
      · norm_num [List.getD, shl64_eq, sub64, and255]
        rw [or4_bytes (by omega) (by omega) (by omega) (by omega) (by omega) (by omega)]
        omega
      · norm_num [List.getD, shl64_eq, sub64, and255]
        rw [or8_bytes (by omega) (by omega) (by omega) (by omega) (by omega)
          (by omega) (by omega) (by omega) (by omega) (by omega) (by omega)
          (by omega) (by omega) (by omega)]
        omega

theorem bytes_roundtrip_c3_witness :
    ((makeG 0xfedcba98 21 123456789012345 137).Hi ≠ 0 →
      (Bytes (makeG 0xfedcba98 21 123456789012345 137)).length = 12) ∧
    ((makeG 0xfedcba98 21 123456789012345 137).Hi = 0 →
      (Bytes (makeG 0xfedcba98 21 123456789012345 137)).length = 8) ∧
    FromBytes (Bytes (makeG 0xfedcba98 21 123456789012345 137)) =
      Except.ok (makeG 0xfedcba98 21 123456789012345 137) :=
  bytes_roundtrip_c3 (makeG 0xfedcba98 21 123456789012345 137) (by decide) (by decide)

end Guid
